import Mathlib

set_option linter.unusedVariables false

/-!
Shallow embedding of the sparse matrix subsystem (`gsl_spmatrix`) of this
repository, together with two CBLAS kernels (the real `gemv` kernel and the
complex `tbmv` dispatch condition).

The sparse matrix algorithm bodies are not present in the source excerpt
(only their documentation is), so the sparse definitions below are modelled
from the specification and the in-source documentation (`gsl_spmatrix.h`
chapter): each such definition carries a doc comment saying what it models.
Element values (`double`) are modelled as rationals, `size_t` counters as
naturals.
-/

/-- Storage format tag of a sparse matrix: triplet, compressed column
storage, or compressed row storage. -/
inductive SpType where
  | triplet
  | ccs
  | crs
deriving DecidableEq, Repr

/-- Error conditions of the sparse matrix API (a subset of the GSL error
codes relevant to the claims). -/
inductive GslErr where
  | badFormat
  | emptyResult
deriving DecidableEq, Repr

/-- Modelled from the spec: the `gsl_spmatrix` record.  `size1`/`size2` are
the dimensions, `i` the minor index array, `data` the value array, `p` the
major pointer array (in triplet form: the column index per entry), `nzmax`
the capacity, `nz` the number of stored entries, `sptype` the format tag.
Backing arrays are lists of length `nzmax` in triplet form, of which the
first `nz` slots are in use. -/
structure gsl_spmatrix where
  size1 : ℕ
  size2 : ℕ
  i : List ℕ
  data : List ℚ
  p : List ℕ
  nzmax : ℕ
  nz : ℕ
  sptype : SpType
deriving DecidableEq, Repr

/-- The stored triplet entries `(row, col, value)`, read off the used prefix
of the three parallel arrays. -/
def tripletEntries (M : gsl_spmatrix) : List (ℕ × ℕ × ℚ) :=
  (M.i.take M.nz).zip ((M.p.take M.nz).zip (M.data.take M.nz))

/-- The `(row, col)` coordinate of a triplet entry. -/
def eCoord (e : ℕ × ℕ × ℚ) : ℕ × ℕ :=
  (e.1, e.2.1)

/-- Coordinates of the stored triplet entries, in slot order. -/
def tripletCoords (M : gsl_spmatrix) : List (ℕ × ℕ) :=
  (tripletEntries M).map eCoord

/-- Length well-formedness of a triplet matrix: the used prefix fits the
capacity and the three backing arrays have capacity length. -/
def LenWf (M : gsl_spmatrix) : Prop :=
  M.nz ≤ M.nzmax ∧ M.i.length = M.nzmax ∧ M.p.length = M.nzmax ∧ M.data.length = M.nzmax

instance (M : gsl_spmatrix) : Decidable (LenWf M) := by
  unfold LenWf
  exact inferInstance

/-- Full structural well-formedness of a triplet matrix: length
well-formedness plus all stored coordinates within the matrix dimensions. -/
def TripletWf (M : gsl_spmatrix) : Prop :=
  LenWf M ∧ ∀ e ∈ tripletEntries M, e.1 < M.size1 ∧ e.2.1 < M.size2

instance (M : gsl_spmatrix) : Decidable (TripletWf M) := by
  unfold TripletWf
  exact inferInstance

/-- Modelled from the spec: the AVL index tree is represented by its mapping
semantics — lookup of the slot of the first stored entry with the given
coordinates (the balancing discipline affects only complexity, not the
mapping). -/
def findSlot (r c : ℕ) : List (ℕ × ℕ) → Option ℕ
  | [] => none
  | rc :: t => if rc.1 = r ∧ rc.2 = c then some 0 else (findSlot r c t).map (· + 1)

/-- Modelled from the spec: `gsl_spmatrix_realloc` grows the backing arrays
to at least the requested capacity, preserving existing content (growth is
array extension, not compaction; slot references stay stable). -/
def gsl_spmatrix_realloc (n : ℕ) (M : gsl_spmatrix) : gsl_spmatrix :=
  { M with nzmax := max M.nzmax n,
           i := M.i ++ List.replicate (n - M.i.length) 0,
           p := M.p ++ List.replicate (n - M.p.length) 0,
           data := M.data ++ List.replicate (n - M.data.length) 0 }

/-- Modelled from the spec: the triplet insertion body of
`gsl_spmatrix_set`.  Looks up `(r, c)` in the index; if found, overwrites
the value in place; if absent, grows storage when capacity is exhausted
(doubling-or-requested-size policy), appends the entry at slot `nz`,
increments `nz`, and grows the dimensions if needed. -/
def tripletSet (M : gsl_spmatrix) (r c : ℕ) (x : ℚ) : gsl_spmatrix :=
  match findSlot r c (tripletCoords M) with
  | some k => { M with data := M.data.set k x }
  | none =>
      let M1 := if M.nzmax ≤ M.nz then gsl_spmatrix_realloc (max (2 * M.nzmax) (M.nz + 1)) M
                else M
      { M1 with i := M1.i.set M1.nz r,
                p := M1.p.set M1.nz c,
                data := M1.data.set M1.nz x,
                nz := M1.nz + 1,
                size1 := max M1.size1 (r + 1),
                size2 := max M1.size2 (c + 1) }

/-- Modelled from the spec: `gsl_spmatrix_set` requires triplet format and
fails with a format mismatch otherwise. -/
def gsl_spmatrix_set (M : gsl_spmatrix) (r c : ℕ) (x : ℚ) : Except GslErr gsl_spmatrix :=
  if M.sptype = SpType.triplet then Except.ok (tripletSet M r c x)
  else Except.error GslErr.badFormat

/-- Boolean coordinate match used by the triplet lookup. -/
def coordMatch (r c : ℕ) (e : ℕ × ℕ × ℚ) : Bool :=
  decide (e.1 = r ∧ e.2.1 = c)

/-- Triplet element lookup: value of the first stored entry at `(r, c)`,
or `0` when no entry is stored there. -/
def tripletFindVal (M : gsl_spmatrix) (r c : ℕ) : ℚ :=
  match (tripletEntries M).find? (coordMatch r c) with
  | some e => e.2.2
  | none => 0

/-- The `(minor index, value)` pairs of one major slice
`[p[j], p[j+1])` of a compressed matrix. -/
def compSlice (M : gsl_spmatrix) (j : ℕ) : List (ℕ × ℚ) :=
  ((M.i.zip M.data).drop (M.p.getD j 0)).take (M.p.getD (j + 1) 0 - M.p.getD j 0)

/-- Linear scan of a compressed slice for a minor index. -/
def sliceFindVal (s : List (ℕ × ℚ)) (t : ℕ) : ℚ :=
  match s.find? (fun e => decide (e.1 = t)) with
  | some e => e.2
  | none => 0

/-- Modelled from the spec: `gsl_spmatrix_get` works in any format —
triplet via index lookup, CCS/CRS via a linear scan of the relevant
column/row slice; returns `0` for a coordinate with no stored entry. -/
def gsl_spmatrix_get (M : gsl_spmatrix) (r c : ℕ) : ℚ :=
  if M.sptype = SpType.triplet then tripletFindVal M r c
  else if M.sptype = SpType.ccs then sliceFindVal (compSlice M c) r
  else sliceFindVal (compSlice M r) c

/-- Modelled from the spec: `gsl_spmatrix_alloc_nzmax` allocates an all-zero
matrix with the given dimensions, capacity and format (capacity at least 1);
for compressed formats `p` has `size + 1` slots. -/
def gsl_spmatrix_alloc_nzmax (n1 n2 nzmax : ℕ) (t : SpType) : gsl_spmatrix :=
  let nm := max nzmax 1
  { size1 := n1, size2 := n2,
    i := List.replicate nm 0,
    data := List.replicate nm 0,
    p := match t with
         | SpType.triplet => List.replicate nm 0
         | SpType.ccs => List.replicate (n2 + 1) 0
         | SpType.crs => List.replicate (n1 + 1) 0,
    nzmax := nm, nz := 0, sptype := t }

/-- Modelled from the spec: `gsl_spmatrix_alloc` uses triplet format and
estimates the capacity as 10% of `n1 * n2`. -/
def gsl_spmatrix_alloc (n1 n2 : ℕ) : gsl_spmatrix :=
  gsl_spmatrix_alloc_nzmax n1 n2 (n1 * n2 / 10) SpType.triplet

/-- Major pointer array of the counting sort: `p[j]` is the total count of
entries in the buckets before bucket `j` (the prefix-sum of the per-bucket
counts), for `j = 0 .. m`. -/
def majorPtrs (buckets : List (List (ℕ × ℕ × ℚ))) (m : ℕ) : List ℕ :=
  (List.range (m + 1)).map (fun j => ((buckets.take j).map List.length).sum)

/-- The per-column buckets of the CCS counting sort: for each column `j`,
the stored entries of column `j` in insertion order (stability of the
counting-sort scatter). -/
def ccsBuckets (T : gsl_spmatrix) : List (List (ℕ × ℕ × ℚ)) :=
  (List.range T.size2).map (fun j => (tripletEntries T).filter (fun e => decide (e.2.1 = j)))

/-- The compressed-column matrix produced from a triplet matrix: each
column's slice holds that column's entries in insertion order, the minor
index array stores row indices, and `p` is the per-column prefix-sum. -/
def ccsMat (T : gsl_spmatrix) : gsl_spmatrix :=
  { size1 := T.size1, size2 := T.size2,
    i := (ccsBuckets T).flatten.map (fun e => e.1),
    data := (ccsBuckets T).flatten.map (fun e => e.2.2),
    p := majorPtrs (ccsBuckets T) T.size2,
    nzmax := max T.nz 1, nz := T.nz, sptype := SpType.ccs }

/-- Modelled from the spec: `gsl_spmatrix_ccs` converts a triplet matrix to
compressed column storage by a stable counting sort — count entries per
column, build the prefix-sum major pointer array of length `size2 + 1`, and
scatter the entries so each column's slice holds its entries in insertion
order.  The input is unmodified (the output is a fresh matrix). -/
def gsl_spmatrix_ccs (T : gsl_spmatrix) : Except GslErr gsl_spmatrix :=
  if T.sptype = SpType.triplet then Except.ok (ccsMat T)
  else Except.error GslErr.badFormat

/-- The per-row buckets of the CRS counting sort. -/
def crsBuckets (T : gsl_spmatrix) : List (List (ℕ × ℕ × ℚ)) :=
  (List.range T.size1).map (fun r => (tripletEntries T).filter (fun e => decide (e.1 = r)))

/-- The compressed-row matrix produced from a triplet matrix; the minor
index array stores column indices. -/
def crsMat (T : gsl_spmatrix) : gsl_spmatrix :=
  { size1 := T.size1, size2 := T.size2,
    i := (crsBuckets T).flatten.map (fun e => e.2.1),
    data := (crsBuckets T).flatten.map (fun e => e.2.2),
    p := majorPtrs (crsBuckets T) T.size1,
    nzmax := max T.nz 1, nz := T.nz, sptype := SpType.crs }

/-- Modelled from the spec: `gsl_spmatrix_crs` is the symmetric conversion
bucketing by row. -/
def gsl_spmatrix_crs (T : gsl_spmatrix) : Except GslErr gsl_spmatrix :=
  if T.sptype = SpType.triplet then Except.ok (crsMat T)
  else Except.error GslErr.badFormat

/-- The example entry sequence of the documentation: the 5-by-4 matrix built
by inserting (0,2)=3.1, (0,3)=4.6, (1,0)=1.0, (1,2)=7.2, (3,0)=2.1,
(3,1)=2.9, (3,3)=8.5, (4,0)=4.1 in this order. -/
def exEntries : List (ℕ × ℕ × ℚ) :=
  [(0, 2, (31 : ℚ)/10), (0, 3, (46 : ℚ)/10), (1, 0, 1), (1, 2, (72 : ℚ)/10),
   (3, 0, (21 : ℚ)/10), (3, 1, (29 : ℚ)/10), (3, 3, (85 : ℚ)/10), (4, 0, (41 : ℚ)/10)]

/-- Repeated insertion of a list of `(row, col, value)` triples. -/
def setList (M : gsl_spmatrix) (l : List (ℕ × ℕ × ℚ)) : gsl_spmatrix :=
  l.foldl (fun acc e => tripletSet acc e.1 e.2.1 e.2.2) M

/-- The documentation's example matrix, built through the insertion API. -/
def exM : gsl_spmatrix :=
  setList (gsl_spmatrix_alloc 5 4) exEntries

/-- The major pointer array of an `Except`-wrapped conversion result. -/
def resultP (r : Except GslErr gsl_spmatrix) : Option (List ℕ) :=
  r.toOption.map gsl_spmatrix.p

/-- Specification-level insertion on the entry list: overwrite the value of
the first entry at `(r, c)`, or append a fresh entry when the coordinate is
absent.  The array-level `tripletSet` is proved to refine this. -/
def setEntries (r c : ℕ) (x : ℚ) : List (ℕ × ℕ × ℚ) → List (ℕ × ℕ × ℚ)
  | [] => [(r, c, x)]
  | e :: t => if e.1 = r ∧ e.2.1 = c then (r, c, x) :: t else e :: setEntries r c x t

/-- Replace the value component of the entry at position `k`, keeping its
coordinates. -/
def modVal : ℕ → ℚ → List (ℕ × ℕ × ℚ) → List (ℕ × ℕ × ℚ)
  | _, _, [] => []
  | 0, x, e :: t => (e.1, e.2.1, x) :: t
  | k + 1, x, e :: t => e :: modVal k x t

/-- Modelled from the spec: `gsl_spmatrix_sp2d` converts a triplet matrix to
dense form by scattering each stored entry into the dense array (the dense
matrix is represented as a total function, zero outside stored entries).
The input must be in triplet format. -/
def gsl_spmatrix_sp2d (M : gsl_spmatrix) : Except GslErr (ℕ → ℕ → ℚ) :=
  if M.sptype = SpType.triplet then
    Except.ok ((tripletEntries M).foldl
      (fun A e => fun r c => if r = e.1 ∧ c = e.2.1 then e.2.2 else A r c)
      (fun _ _ => 0))
  else Except.error GslErr.badFormat

/-- Modelled from the spec: `gsl_spmatrix_transpose` replaces a matrix by
its transpose preserving the storage format; per the in-source
documentation, only triplet inputs are currently supported — for a triplet
matrix the row and column arrays are swapped, for a compressed matrix the
call fails. -/
def gsl_spmatrix_transpose (M : gsl_spmatrix) : Except GslErr gsl_spmatrix :=
  match M.sptype with
  | SpType.triplet =>
      Except.ok { M with i := M.p, p := M.i, size1 := M.size2, size2 := M.size1 }
  | _ => Except.error GslErr.badFormat

/-- Modelled from the spec: `gsl_spmatrix_transpose2` transposes by format
duality — a CCS matrix is reinterpreted as the CRS representation of its
transpose (dimensions swapped, format tag relabelled, no data movement),
and vice versa; a triplet matrix has its row and column arrays swapped. -/
def gsl_spmatrix_transpose2 (M : gsl_spmatrix) : gsl_spmatrix :=
  match M.sptype with
  | SpType.triplet => { M with i := M.p, p := M.i, size1 := M.size2, size2 := M.size1 }
  | SpType.ccs => { M with size1 := M.size2, size2 := M.size1, sptype := SpType.crs }
  | SpType.crs => { M with size1 := M.size2, size2 := M.size1, sptype := SpType.ccs }

/-- The coordinates explicitly stored in a matrix, read off the format's
own structure: triplet coordinates, or `(minor, major)` pairs of the
compressed slices. -/
def storedCoords (M : gsl_spmatrix) : List (ℕ × ℕ) :=
  if M.sptype = SpType.triplet then tripletCoords M
  else if M.sptype = SpType.ccs then
    (List.range M.size2).flatMap (fun j => (compSlice M j).map (fun e => (e.1, j)))
  else
    (List.range M.size1).flatMap (fun r => (compSlice M r).map (fun e => (r, e.1)))

/-- Modelled from the spec: `gsl_spmatrix_equal` requires identical format
and dimensions, and compares the logical element values at every coordinate
explicitly stored in either operand (coverage is checked in both
directions, so an explicit zero in one matrix equals an absent entry in the
other). -/
def gsl_spmatrix_equal (a b : gsl_spmatrix) : Bool :=
  if a.sptype = b.sptype ∧ a.size1 = b.size1 ∧ a.size2 = b.size2 then
    (storedCoords a).all (fun rc => gsl_spmatrix_get a rc.1 rc.2 == gsl_spmatrix_get b rc.1 rc.2)
      && (storedCoords b).all (fun rc => gsl_spmatrix_get a rc.1 rc.2 == gsl_spmatrix_get b rc.1 rc.2)
  else false

/-- Structural well-formedness of the major pointer array used by the
stored-coordinate enumeration: in a compressed format `p` has one slot per
major index plus one. -/
def PtrWf (M : gsl_spmatrix) : Prop :=
  if M.sptype = SpType.triplet then True
  else if M.sptype = SpType.ccs then M.p.length = M.size2 + 1
  else M.p.length = M.size1 + 1

instance (M : gsl_spmatrix) : Decidable (PtrWf M) := by
  unfold PtrWf
  exact inferInstance

/-- Modelled from the spec: `gsl_spmatrix_minmax` fails with the
empty-result error when no entry is stored, and otherwise scans exactly the
stored values, starting from the first stored value. -/
def gsl_spmatrix_minmax (M : gsl_spmatrix) : Except GslErr (ℚ × ℚ) :=
  if M.nz = 0 then Except.error GslErr.emptyResult
  else
    let vals := M.data.take M.nz
    Except.ok (vals.foldl min (vals.headD 0), vals.foldl max (vals.headD 0))

/-- A small concrete compressed-column matrix (a 2-by-2 matrix holding the
single entry `(0,0) = 5`), used as a concrete test input. -/
def exC : gsl_spmatrix :=
  { size1 := 2, size2 := 2, i := [0], data := [5], p := [0, 1, 1],
    nzmax := 1, nz := 1, sptype := SpType.ccs }

/-- CBLAS matrix order flag. -/
inductive CBLAS_ORDER where
  | RowMajor
  | ColMajor
deriving DecidableEq, Repr

/-- CBLAS transpose flag. -/
inductive CBLAS_TRANSPOSE where
  | NoTrans
  | Trans
  | ConjTrans
deriving DecidableEq, Repr

/-- Embedding of the branch-selection condition of `source_tbmv_c.h`
(lines 31-32) exactly as written in the source:

  `(order == CblasRowMajor && TransA == CblasNoTrans) ||`
  `(order == CblasColMajor && TransA = CblasTrans)`

the second conjunct uses `=` (assignment), not `==`.  Under C
short-circuit evaluation, whenever `order == CblasColMajor` is reached and
true the assignment stores `CblasTrans` into `TransA` and yields the
nonzero value `CblasTrans`, so the condition evaluates to true.  The
function returns the pair (condition value, value of `TransA` after the
condition is evaluated). -/
def tbmvDispatchCond (order : CBLAS_ORDER) (TransA : CBLAS_TRANSPOSE) :
    Bool × CBLAS_TRANSPOSE :=
  if order = CBLAS_ORDER.RowMajor ∧ TransA = CBLAS_TRANSPOSE.NoTrans then
    (true, TransA)
  else if order = CBLAS_ORDER.ColMajor then
    (true, CBLAS_TRANSPOSE.Trans)
  else
    (false, TransA)

/-- The `OFFSET(N, incX)` macro of the BLAS kernels: start index of a
strided vector (`0` for a positive stride, `(N-1) * (-incX)` otherwise). -/
def OFFSET (N : ℕ) (inc : ℤ) : ℤ :=
  if 0 < inc then 0 else ((N - 1 : ℕ) : ℤ) * (-inc)

/-- The `Y[iy] = 0` loop of `source_gemv_r.h` (`beta == 0` case). -/
def gemvZeroLoop (incY : ℤ) : ℕ → ℤ → List ℚ → List ℚ
  | 0, _, Y => Y
  | n + 1, iy, Y => gemvZeroLoop incY n (iy + incY) (Y.set iy.toNat 0)

/-- The `Y[iy] *= beta` loop of `source_gemv_r.h` (`beta != 1` case). -/
def gemvScaleLoop (beta : ℚ) (incY : ℤ) : ℕ → ℤ → List ℚ → List ℚ
  | 0, _, Y => Y
  | n + 1, iy, Y => gemvScaleLoop beta incY n (iy + incY) (Y.set iy.toNat (beta * Y.getD iy.toNat 0))

/-- Inner dot-product loop of the first `gemv` branch:
`temp += X[ix] * A[lda*i + j]`. -/
def gemvDotLoop (X A : List ℚ) (lda row : ℕ) (incX : ℤ) : ℕ → ℕ → ℤ → ℚ → ℚ
  | 0, _, _, temp => temp
  | n + 1, j, ix, temp =>
      gemvDotLoop X A lda row incX n (j + 1) (ix + incX)
        (temp + X.getD ix.toNat 0 * A.getD (lda * row + j) 0)

/-- Outer loop of the first `gemv` branch (`y := alpha*A*x + y`). -/
def gemvLoop1 (alpha : ℚ) (A : List ℚ) (lda : ℕ) (X : List ℚ) (incX : ℤ) (lenX : ℕ)
    (incY : ℤ) : ℕ → ℕ → ℤ → List ℚ → List ℚ
  | 0, _, _, Y => Y
  | n + 1, row, iy, Y =>
      let temp := gemvDotLoop X A lda row incX lenX 0 (OFFSET lenX incX) 0
      gemvLoop1 alpha A lda X incX lenX incY n (row + 1) (iy + incY)
        (Y.set iy.toNat (Y.getD iy.toNat 0 + alpha * temp))

/-- Inner update loop of the second `gemv` branch:
`Y[iy] += temp * A[lda*j + i]`. -/
def gemvAxpyLoop (temp : ℚ) (A : List ℚ) (lda col : ℕ) (incY : ℤ) :
    ℕ → ℕ → ℤ → List ℚ → List ℚ
  | 0, _, _, Y => Y
  | n + 1, row, iy, Y =>
      gemvAxpyLoop temp A lda col incY n (row + 1) (iy + incY)
        (Y.set iy.toNat (Y.getD iy.toNat 0 + temp * A.getD (lda * col + row) 0))

/-- Outer loop of the second `gemv` branch (`y := alpha*A'*x + y`), with
the `temp != 0.0` skip. -/
def gemvLoop2 (alpha : ℚ) (A : List ℚ) (lda : ℕ) (X : List ℚ) (incX : ℤ) (lenY : ℕ)
    (incY : ℤ) : ℕ → ℕ → ℤ → List ℚ → List ℚ
  | 0, _, _, Y => Y
  | n + 1, col, ix, Y =>
      let temp := alpha * X.getD ix.toNat 0
      let Y1 := if temp ≠ 0 then gemvAxpyLoop temp A lda col incY lenY 0 (OFFSET lenY incY) Y
                else Y
      gemvLoop2 alpha A lda X incX lenY incY n (col + 1) (ix + incX) Y1

/-- Embedding of the real matrix-vector multiply kernel `source_gemv_r.h`:
the `alpha == 0 && beta == 1` early return, the `beta` scaling of `Y`, the
`alpha == 0` return, and the two traversal branches selected on
`(order, TransA)`; the unrecognized combination reports `BLAS_ERROR`,
modelled as `none`.  The result is the final contents of `Y`. -/
def gemv (order : CBLAS_ORDER) (TransA : CBLAS_TRANSPOSE) (M N : ℕ) (alpha : ℚ)
    (A : List ℚ) (lda : ℕ) (X : List ℚ) (incX : ℤ) (beta : ℚ) (Y : List ℚ)
    (incY : ℤ) : Option (List ℚ) :=
  if alpha = 0 ∧ beta = 1 then some Y
  else
    let lenX := if TransA = CBLAS_TRANSPOSE.NoTrans then N else M
    let lenY := if TransA = CBLAS_TRANSPOSE.NoTrans then M else N
    let Y1 := if beta = 0 then gemvZeroLoop incY lenY (OFFSET lenY incY) Y
              else if beta ≠ 1 then gemvScaleLoop beta incY lenY (OFFSET lenY incY) Y
              else Y
    if alpha = 0 then some Y1
    else if (order = CBLAS_ORDER.RowMajor ∧ TransA = CBLAS_TRANSPOSE.NoTrans)
        ∨ (order = CBLAS_ORDER.ColMajor ∧ TransA = CBLAS_TRANSPOSE.Trans) then
      some (gemvLoop1 alpha A lda X incX lenX incY lenY 0 (OFFSET lenY incY) Y1)
    else if (order = CBLAS_ORDER.RowMajor ∧ TransA = CBLAS_TRANSPOSE.Trans)
        ∨ (order = CBLAS_ORDER.ColMajor ∧ TransA = CBLAS_TRANSPOSE.NoTrans) then
      some (gemvLoop2 alpha A lda X incX lenY incY lenX 0 (OFFSET lenX incX) Y1)
    else none

/-! ### List-level helper lemmas -/

theorem find?_filter_comb {α : Type} (l : List α) (p q : α → Bool) :
    (l.filter q).find? p = l.find? (fun a => q a && p a) := by
  induction l with
  | nil => rfl
  | cons e t ih =>
      by_cases hq : q e = true
      · by_cases hp : p e = true
        · rw [List.filter_cons_of_pos hq, List.find?_cons_of_pos _ hp,
              List.find?_cons_of_pos _ (by simp [hq, hp])]
        · rw [List.filter_cons_of_pos hq, List.find?_cons_of_neg _ hp,
              List.find?_cons_of_neg _ (by simp [hq, hp]), ih]
      · rw [List.filter_cons_of_neg hq, List.find?_cons_of_neg _ (by simp [hq]), ih]

theorem set_append_len {α : Type} (l1 : List α) (a v : α) :
    (l1 ++ [a]).set l1.length v = l1 ++ [v] := by
  induction l1 with
  | nil => rfl
  | cons b t ih => simp [ih]

theorem take_set_succ {α : Type} (l : List α) (n : ℕ) (v : α) (h : n < l.length) :
    (l.set n v).take (n + 1) = l.take n ++ [v] := by
  rw [List.set_take, List.take_succ, List.getElem?_eq_getElem h]
  have hl : (l.take n).length = n := by simp; omega
  calc (l.take n ++ [l[n]]).set n v
      = (l.take n ++ [l[n]]).set (l.take n).length v := by rw [hl]
    _ = l.take n ++ [v] := set_append_len _ _ _

theorem zip_zip_set (A B : List ℕ) (D : List ℚ) (k : ℕ) (x : ℚ) (hA : k < A.length)
    (hB : k < B.length) (hD : k < D.length) :
    A.zip (B.zip (D.set k x)) = modVal k x (A.zip (B.zip D)) := by
  induction A generalizing B D k with
  | nil => simp at hA
  | cons a At ih =>
      cases B with
      | nil => simp at hB
      | cons b Bt =>
          cases D with
          | nil => simp at hD
          | cons d Dt =>
              cases k with
              | zero => simp [modVal, List.zip]
              | succ k =>
                  simp only [List.set_cons_succ, List.zip_cons_cons, modVal]
                  rw [ih Bt Dt k (by simpa using hA) (by simpa using hB) (by simpa using hD)]
                  rfl

/-! ### Index lookup lemmas -/

theorem findSlot_some_lt (r c : ℕ) (L : List (ℕ × ℕ)) (k : ℕ)
    (h : findSlot r c L = some k) : k < L.length := by
  induction L generalizing k with
  | nil => simp [findSlot] at h
  | cons rc t ih =>
      by_cases hm : rc.1 = r ∧ rc.2 = c
      · simp [findSlot, hm] at h
        simp [← h]
      · simp [findSlot, hm] at h
        obtain ⟨k', hk', rfl⟩ := h
        have := ih k' hk'
        simp
        omega

theorem findSlot_mem (r c : ℕ) (L : List (ℕ × ℕ)) (h : (r, c) ∈ L) :
    ∃ k, findSlot r c L = some k := by
  induction L with
  | nil => simp at h
  | cons rc t ih =>
      by_cases hm : rc.1 = r ∧ rc.2 = c
      · exact ⟨0, by simp [findSlot, hm]⟩
      · rcases List.mem_cons.mp h with h1 | h1
        · exact absurd (by rw [← h1]; exact ⟨rfl, rfl⟩) hm
        · obtain ⟨k, hk⟩ := ih h1
          exact ⟨k + 1, by simp [findSlot, hm, hk]⟩

theorem findSlot_some_setEntries (r c : ℕ) (x : ℚ) (l : List (ℕ × ℕ × ℚ)) (k : ℕ)
    (h : findSlot r c (l.map eCoord) = some k) :
    modVal k x l = setEntries r c x l := by
  induction l generalizing k with
  | nil => simp [findSlot] at h
  | cons e t ih =>
      rw [List.map_cons] at h
      by_cases hm : e.1 = r ∧ e.2.1 = c
      · simp [findSlot, eCoord, hm] at h
        simp [← h, modVal, setEntries, hm, hm.1, hm.2]
      · simp [findSlot, eCoord, hm] at h
        obtain ⟨k', hk', rfl⟩ := h
        simp [modVal, setEntries, hm, ih k' hk']

theorem findSlot_none_setEntries (r c : ℕ) (x : ℚ) (l : List (ℕ × ℕ × ℚ))
    (h : findSlot r c (l.map eCoord) = none) :
    setEntries r c x l = l ++ [(r, c, x)] := by
  induction l with
  | nil => rfl
  | cons e t ih =>
      rw [List.map_cons] at h
      by_cases hm : e.1 = r ∧ e.2.1 = c
      · simp [findSlot, eCoord, hm] at h
      · simp [findSlot, eCoord, hm] at h
        simp [setEntries, hm, ih h]

/-! ### Entry-list correspondence for the triplet operations -/

theorem tripletEntries_length (M : gsl_spmatrix) (hW : LenWf M) :
    (tripletEntries M).length = M.nz := by
  obtain ⟨h1, h2, h3, h4⟩ := hW
  simp [tripletEntries]
  omega

theorem tripletEntries_realloc (n : ℕ) (M : gsl_spmatrix) (hW : LenWf M) :
    tripletEntries (gsl_spmatrix_realloc n M) = tripletEntries M := by
  obtain ⟨h1, h2, h3, h4⟩ := hW
  show ((M.i ++ _).take M.nz).zip (((M.p ++ _).take M.nz).zip ((M.data ++ _).take M.nz))
      = tripletEntries M
  rw [List.take_append_of_le_length (by omega), List.take_append_of_le_length (by omega),
      List.take_append_of_le_length (by omega)]
  rfl

theorem realloc_lenWf (n : ℕ) (M : gsl_spmatrix) (hW : LenWf M) :
    LenWf (gsl_spmatrix_realloc n M) := by
  obtain ⟨h1, h2, h3, h4⟩ := hW
  refine ⟨?_, ?_, ?_, ?_⟩ <;> simp [gsl_spmatrix_realloc] <;> omega

theorem tripletEntries_overwrite (M : gsl_spmatrix) (k : ℕ) (x : ℚ) (hW : LenWf M)
    (hk : k < M.nz) :
    tripletEntries { M with data := M.data.set k x } = modVal k x (tripletEntries M) := by
  obtain ⟨h1, h2, h3, h4⟩ := hW
  show (M.i.take M.nz).zip ((M.p.take M.nz).zip ((M.data.set k x).take M.nz))
      = modVal k x (tripletEntries M)
  rw [List.set_take]
  exact zip_zip_set _ _ _ _ _ (by simp; omega) (by simp; omega) (by simp; omega)

theorem tripletEntries_append (M1 : gsl_spmatrix) (r c s1 s2 : ℕ) (x : ℚ) (hW : LenWf M1)
    (hlt : M1.nz < M1.nzmax) :
    tripletEntries { M1 with i := M1.i.set M1.nz r, p := M1.p.set M1.nz c,
                             data := M1.data.set M1.nz x, nz := M1.nz + 1,
                             size1 := s1, size2 := s2 }
      = tripletEntries M1 ++ [(r, c, x)] := by
  obtain ⟨h1, h2, h3, h4⟩ := hW
  show ((M1.i.set M1.nz r).take (M1.nz + 1)).zip
        (((M1.p.set M1.nz c).take (M1.nz + 1)).zip ((M1.data.set M1.nz x).take (M1.nz + 1)))
      = tripletEntries M1 ++ [(r, c, x)]
  rw [take_set_succ _ _ _ (by omega), take_set_succ _ _ _ (by omega),
      take_set_succ _ _ _ (by omega)]
  rw [List.zip_append (by simp; omega), List.zip_append (by simp; omega)]
  rfl

theorem tripletSet_entries (M : gsl_spmatrix) (r c : ℕ) (x : ℚ) (hW : LenWf M) :
    tripletEntries (tripletSet M r c x) = setEntries r c x (tripletEntries M) := by
  unfold tripletSet
  cases hfs : findSlot r c (tripletCoords M) with
  | some k =>
      have hk : k < M.nz := by
        have hlt := findSlot_some_lt r c (tripletCoords M) k hfs
        rw [tripletCoords, List.length_map, tripletEntries_length M hW] at hlt
        exact hlt
      rw [tripletEntries_overwrite M k x hW hk]
      exact findSlot_some_setEntries r c x (tripletEntries M) k hfs
  | none =>
      by_cases hcap : M.nzmax ≤ M.nz
      · simp only [hcap, if_true]
        have hW1 : LenWf (gsl_spmatrix_realloc (max (2 * M.nzmax) (M.nz + 1)) M) :=
          realloc_lenWf _ M hW
        have hE1 := tripletEntries_realloc (max (2 * M.nzmax) (M.nz + 1)) M hW
        have hlt : (gsl_spmatrix_realloc (max (2 * M.nzmax) (M.nz + 1)) M).nz
            < (gsl_spmatrix_realloc (max (2 * M.nzmax) (M.nz + 1)) M).nzmax := by
          simp [gsl_spmatrix_realloc]
        rw [tripletEntries_append _ r c _ _ x hW1 hlt, hE1]
        exact (findSlot_none_setEntries r c x (tripletEntries M) hfs).symm
      · simp only [hcap, if_false]
        rw [tripletEntries_append M r c _ _ x hW (by omega)]
        exact (findSlot_none_setEntries r c x (tripletEntries M) hfs).symm

theorem tripletSet_sptype (M : gsl_spmatrix) (r c : ℕ) (x : ℚ) :
    (tripletSet M r c x).sptype = M.sptype := by
  unfold tripletSet
  cases findSlot r c (tripletCoords M) with
  | some k => rfl
  | none =>
      by_cases hcap : M.nzmax ≤ M.nz
      · simp [hcap, gsl_spmatrix_realloc]
      · simp [hcap]

theorem tripletSet_lenWf (M : gsl_spmatrix) (r c : ℕ) (x : ℚ) (hW : LenWf M) :
    LenWf (tripletSet M r c x) := by
  obtain ⟨h1, h2, h3, h4⟩ := hW
  unfold tripletSet
  cases findSlot r c (tripletCoords M) with
  | some k => exact ⟨h1, h2, h3, by simp [h4]⟩
  | none =>
      by_cases hcap : M.nzmax ≤ M.nz <;> simp only [hcap, if_true, if_false]
      · refine ⟨?_, ?_, ?_, ?_⟩ <;> simp [gsl_spmatrix_realloc] <;> omega
      · refine ⟨?_, ?_, ?_, ?_⟩ <;> simp <;> omega

theorem find?_setEntries_self (r c : ℕ) (x : ℚ) (l : List (ℕ × ℕ × ℚ)) :
    (setEntries r c x l).find? (coordMatch r c) = some (r, c, x) := by
  induction l with
  | nil => simp [setEntries, List.find?, coordMatch]
  | cons e t ih =>
      by_cases hm : e.1 = r ∧ e.2.1 = c
      · simp [setEntries, hm, List.find?, coordMatch]
      · simp only [setEntries, hm, if_false]
        rw [List.find?_cons_of_neg _ (by simp [coordMatch, hm]), ih]

theorem find?_setEntries_frame (r c r' c' : ℕ) (x : ℚ) (l : List (ℕ × ℕ × ℚ))
    (hne : (r', c') ≠ (r, c)) :
    (setEntries r c x l).find? (coordMatch r' c') = l.find? (coordMatch r' c') := by
  have hnm : ¬coordMatch r' c' (r, c, x) = true := by
    simp only [coordMatch, decide_eq_true_eq]
    rintro ⟨rfl, rfl⟩
    exact hne rfl
  induction l with
  | nil =>
      show List.find? (coordMatch r' c') [(r, c, x)] = List.find? (coordMatch r' c') []
      rw [List.find?_cons_of_neg _ hnm]
  | cons e t ih =>
      by_cases hm : e.1 = r ∧ e.2.1 = c
      · simp only [setEntries]
        rw [if_pos hm]
        have hem : ¬coordMatch r' c' e = true := by
          simp only [coordMatch, decide_eq_true_eq]
          rintro ⟨rfl, rfl⟩
          exact hne (by rw [← hm.1, ← hm.2])
        rw [List.find?_cons_of_neg _ hnm, List.find?_cons_of_neg _ hem]
      · simp only [setEntries]
        rw [if_neg hm]
        by_cases he : coordMatch r' c' e = true
        · rw [List.find?_cons_of_pos _ he, List.find?_cons_of_pos _ he]
        · rw [List.find?_cons_of_neg _ (by simpa using he),
              List.find?_cons_of_neg _ (by simpa using he), ih]

theorem get_triplet_eq_findVal (M : gsl_spmatrix) (r c : ℕ)
    (ht : M.sptype = SpType.triplet) :
    gsl_spmatrix_get M r c = tripletFindVal M r c := by
  simp [gsl_spmatrix_get, ht]

theorem get_tripletSet_self (M : gsl_spmatrix) (r c : ℕ) (x : ℚ) (hW : LenWf M)
    (ht : M.sptype = SpType.triplet) :
    gsl_spmatrix_get (tripletSet M r c x) r c = x := by
  rw [get_triplet_eq_findVal _ _ _ (by rw [tripletSet_sptype, ht])]
  unfold tripletFindVal
  rw [tripletSet_entries M r c x hW, find?_setEntries_self]

theorem get_tripletSet_frame (M : gsl_spmatrix) (r c r' c' : ℕ) (x : ℚ) (hW : LenWf M)
    (ht : M.sptype = SpType.triplet) (hne : (r', c') ≠ (r, c)) :
    gsl_spmatrix_get (tripletSet M r c x) r' c' = gsl_spmatrix_get M r' c' := by
  rw [get_triplet_eq_findVal _ _ _ (by rw [tripletSet_sptype, ht]),
      get_triplet_eq_findVal _ _ _ ht]
  unfold tripletFindVal
  rw [tripletSet_entries M r c x hW, find?_setEntries_frame r c r' c' x _ hne]

/-! ### Insertion sequences -/

theorem setList_cons (M : gsl_spmatrix) (e : ℕ × ℕ × ℚ) (t : List (ℕ × ℕ × ℚ)) :
    setList M (e :: t) = setList (tripletSet M e.1 e.2.1 e.2.2) t := by
  rfl

theorem setList_lenWf (seq : List (ℕ × ℕ × ℚ)) (M : gsl_spmatrix) (hW : LenWf M) :
    LenWf (setList M seq) := by
  induction seq generalizing M with
  | nil => exact hW
  | cons e t ih => exact ih _ (tripletSet_lenWf M e.1 e.2.1 e.2.2 hW)

theorem setList_sptype (seq : List (ℕ × ℕ × ℚ)) (M : gsl_spmatrix) :
    (setList M seq).sptype = M.sptype := by
  induction seq generalizing M with
  | nil => rfl
  | cons e t ih => rw [setList_cons, ih, tripletSet_sptype]

theorem get_setList_frame (seq : List (ℕ × ℕ × ℚ)) (M : gsl_spmatrix) (r c : ℕ)
    (hW : LenWf M) (ht : M.sptype = SpType.triplet)
    (hall : ∀ e ∈ seq, eCoord e ≠ (r, c)) :
    gsl_spmatrix_get (setList M seq) r c = gsl_spmatrix_get M r c := by
  induction seq generalizing M with
  | nil => rfl
  | cons e t ih =>
      rw [setList_cons,
          ih _ (tripletSet_lenWf M e.1 e.2.1 e.2.2 hW) (by rw [tripletSet_sptype, ht])
            (fun q hq => hall q (List.mem_cons_of_mem e hq))]
      exact get_tripletSet_frame M e.1 e.2.1 r c e.2.2 hW ht
        (Ne.symm (hall e (List.mem_cons_self e t)))

theorem get_setList_mem (seq : List (ℕ × ℕ × ℚ)) (M : gsl_spmatrix)
    (hW : LenWf M) (ht : M.sptype = SpType.triplet)
    (hdist : seq.Pairwise (fun e1 e2 => eCoord e1 ≠ eCoord e2)) :
    ∀ e ∈ seq, gsl_spmatrix_get (setList M seq) e.1 e.2.1 = e.2.2 := by
  induction seq generalizing M with
  | nil => intro e he; simp at he
  | cons e t ih =>
      intro q hq
      rcases List.mem_cons.mp hq with rfl | hq
      · rw [setList_cons]
        rw [get_setList_frame t _ q.1 q.2.1
            (tripletSet_lenWf M q.1 q.2.1 q.2.2 hW) (by rw [tripletSet_sptype, ht])
            (fun e2 he2 => Ne.symm ((List.pairwise_cons.mp hdist).1 e2 he2))]
        exact get_tripletSet_self M q.1 q.2.1 q.2.2 hW ht
      · exact ih _ (tripletSet_lenWf M e.1 e.2.1 e.2.2 hW)
          (by rw [tripletSet_sptype, ht]) (List.pairwise_cons.mp hdist).2 q hq

/-! ### Counting sort correspondence -/

theorem majorPtrs_getD (B : List (List (ℕ × ℕ × ℚ))) (m j : ℕ) (hj : j < m + 1) :
    (majorPtrs B m).getD j 0 = ((B.take j).map List.length).sum := by
  unfold majorPtrs
  rw [List.getD_eq_getElem?_getD, List.getElem?_map, List.getElem?_range hj]
  rfl

theorem majorPtrs_getD_oor (B : List (List (ℕ × ℕ × ℚ))) (m j : ℕ) (hj : m + 1 ≤ j) :
    (majorPtrs B m).getD j 0 = 0 := by
  apply List.getD_eq_default
  simp [majorPtrs]
  omega

theorem sum_take_len_succ {α : Type} (L : List (List α)) (j : ℕ) (hj : j < L.length) :
    ((L.take (j + 1)).map List.length).sum
      = ((L.take j).map List.length).sum + (L.getD j []).length := by
  rw [List.take_succ, List.getElem?_eq_getElem hj, List.map_append, List.sum_append]
  simp [List.getD_eq_getElem?_getD, List.getElem?_eq_getElem hj]

theorem flatten_drop_take {α : Type} (L : List (List α)) (j : ℕ) (hj : j < L.length) :
    (L.flatten.drop (((L.take j).map List.length).sum)).take (L.getD j []).length
      = L.getD j [] := by
  induction L generalizing j with
  | nil => simp at hj
  | cons hd tl ih =>
      cases j with
      | zero => simp [List.take_left]
      | succ j =>
          have hj' : j < tl.length := by simpa using hj
          show ((hd ++ tl.flatten).drop (((hd :: tl.take j).map List.length).sum)).take
              ((tl.getD j []).length) = tl.getD j []
          rw [List.map_cons, List.sum_cons, List.drop_append]
          exact ih j hj'

theorem range_map_getD {α : Type} (f : ℕ → List α) (m c : ℕ) (hc : c < m) :
    ((List.range m).map f).getD c [] = f c := by
  rw [List.getD_eq_getElem?_getD, List.getElem?_map, List.getElem?_range hc]
  rfl

theorem compSlice_ccsMat (M : gsl_spmatrix) (c : ℕ) (hc : c < M.size2) :
    compSlice (ccsMat M) c
      = ((tripletEntries M).filter (fun e => decide (e.2.1 = c))).map (fun e => (e.1, e.2.2)) := by
  have hlen : (ccsBuckets M).length = M.size2 := by simp [ccsBuckets]
  have hlo : (ccsMat M).p.getD c 0 = (((ccsBuckets M).take c).map List.length).sum :=
    majorPtrs_getD _ _ _ (by omega)
  have hhi : (ccsMat M).p.getD (c + 1) 0
      = (((ccsBuckets M).take c).map List.length).sum + ((ccsBuckets M).getD c []).length := by
    have := majorPtrs_getD (ccsBuckets M) M.size2 (c + 1) (by omega)
    rw [show ((ccsMat M).p.getD (c + 1) 0) = (majorPtrs (ccsBuckets M) M.size2).getD (c + 1) 0
          from rfl, this]
    exact sum_take_len_succ _ _ (by omega)
  show (((ccsMat M).i.zip (ccsMat M).data).drop ((ccsMat M).p.getD c 0)).take
      ((ccsMat M).p.getD (c + 1) 0 - (ccsMat M).p.getD c 0) = _
  rw [hlo, hhi, Nat.add_sub_cancel_left]
  show ((((ccsBuckets M).flatten.map (fun e => e.1)).zip
      ((ccsBuckets M).flatten.map (fun e => e.2.2))).drop _).take _ = _
  rw [List.zip_map']
  rw [← List.map_drop, ← List.map_take]
  rw [flatten_drop_take _ _ (by omega)]
  rw [show (ccsBuckets M).getD c [] = (tripletEntries M).filter (fun e => decide (e.2.1 = c))
        from range_map_getD _ _ _ hc]

theorem sliceFindVal_ccsMat (M : gsl_spmatrix) (r c : ℕ) (hc : c < M.size2) :
    sliceFindVal (compSlice (ccsMat M) c) r = tripletFindVal M r c := by
  rw [compSlice_ccsMat M c hc]
  unfold sliceFindVal tripletFindVal
  rw [List.find?_map]
  have hpred : (fun e : ℕ × ℕ × ℚ => decide (e.2.1 = c) && decide (e.1 = r))
      = coordMatch r c := by
    funext e
    simp [coordMatch, Bool.and_comm]
  rw [show ((fun q : ℕ × ℚ => decide (q.1 = r)) ∘ fun e : ℕ × ℕ × ℚ => (e.1, e.2.2))
        = fun e : ℕ × ℕ × ℚ => decide (e.1 = r) from rfl]
  rw [find?_filter_comb, hpred]
  cases (tripletEntries M).find? (coordMatch r c) with
  | none => rfl
  | some e => rfl

theorem tripletFindVal_col_oor (M : gsl_spmatrix) (hW : TripletWf M) (r c : ℕ)
    (hc : ¬c < M.size2) : tripletFindVal M r c = 0 := by
  unfold tripletFindVal
  cases hf : (tripletEntries M).find? (coordMatch r c) with
  | none => rfl
  | some e =>
      exfalso
      have hmem := List.mem_of_find?_eq_some hf
      have hmatch := List.find?_some hf
      have hlt := (hW.2 e hmem).2
      simp [coordMatch] at hmatch
      omega

theorem get_ccsMat (M : gsl_spmatrix) (hW : TripletWf M) (r c : ℕ) :
    gsl_spmatrix_get (ccsMat M) r c = tripletFindVal M r c := by
  have hty : (ccsMat M).sptype = SpType.ccs := rfl
  rw [gsl_spmatrix_get, if_neg (by rw [hty]; intro h; cases h), if_pos hty]
  by_cases hc : c < M.size2
  · exact sliceFindVal_ccsMat M r c hc
  · have h1 : compSlice (ccsMat M) c = [] := by
      unfold compSlice
      rw [show ((ccsMat M).p.getD (c + 1) 0) = 0 from majorPtrs_getD_oor _ _ _ (by omega)]
      simp
    rw [h1, tripletFindVal_col_oor M hW r c hc]
    rfl

theorem foldl_scatter (l : List (ℕ × ℕ × ℚ)) (A : ℕ → ℕ → ℚ) (r c : ℕ)
    (hnd : (l.map eCoord).Nodup) :
    l.foldl (fun B e => fun r' c' => if r' = e.1 ∧ c' = e.2.1 then e.2.2 else B r' c') A r c
      = (match l.find? (coordMatch r c) with
         | some e => e.2.2
         | none => A r c) := by
  induction l generalizing A with
  | nil => rfl
  | cons e t ih =>
      rw [List.map_cons, List.nodup_cons] at hnd
      rw [List.foldl_cons]
      by_cases hm : e.1 = r ∧ e.2.1 = c
      · rw [List.find?_cons_of_pos _ (by simp [coordMatch, hm.1, hm.2])]
        have hnone : t.find? (coordMatch r c) = none := by
          rw [List.find?_eq_none]
          intro q hq hmq
          simp only [coordMatch, decide_eq_true_eq] at hmq
          apply hnd.1
          rw [show eCoord e = (r, c) by simp [eCoord, hm.1, hm.2]]
          rw [show ((r, c) : ℕ × ℕ) = eCoord q by simp [eCoord, hmq.1, hmq.2]]
          exact List.mem_map_of_mem eCoord hq
        rw [ih _ hnd.2, hnone]
        simp [← hm.1, ← hm.2]
      · rw [List.find?_cons_of_neg _ (by simp [coordMatch]; intro h1 h2; exact hm ⟨h1, h2⟩)]
        rw [ih _ hnd.2]
        have hcond : ¬(r = e.1 ∧ c = e.2.1) := by
          rintro ⟨h1, h2⟩
          exact hm ⟨h1.symm, h2.symm⟩
        have hred : (fun r' c' => if r' = e.1 ∧ c' = e.2.1 then e.2.2 else A r' c') r c
            = A r c := by
          simp only [if_neg hcond]
        cases t.find? (coordMatch r c) with
        | none => exact hred
        | some q => rfl

/-! ### Stored-coordinate coverage -/

theorem sliceFindVal_nil (r : ℕ) : sliceFindVal [] r = 0 := by
  rfl

theorem compSlice_oor (M : gsl_spmatrix) (j : ℕ) (hlen : M.p.length ≤ j + 1) :
    compSlice M j = [] := by
  unfold compSlice
  rw [List.getD_eq_default _ _ hlen]
  simp

theorem get_notStored (M : gsl_spmatrix) (hp : PtrWf M) (r c : ℕ)
    (h : (r, c) ∉ storedCoords M) : gsl_spmatrix_get M r c = 0 := by
  by_cases ht : M.sptype = SpType.triplet
  · rw [storedCoords, if_pos ht] at h
    rw [gsl_spmatrix_get, if_pos ht]
    unfold tripletFindVal
    cases hf : (tripletEntries M).find? (coordMatch r c) with
    | none => rfl
    | some e =>
        exfalso
        apply h
        have hmem := List.mem_of_find?_eq_some hf
        have hmatch := List.find?_some hf
        simp only [coordMatch, decide_eq_true_eq] at hmatch
        rw [tripletCoords, show ((r, c) : ℕ × ℕ) = eCoord e by simp [eCoord, hmatch.1, hmatch.2]]
        exact List.mem_map_of_mem eCoord hmem
  · by_cases hcs : M.sptype = SpType.ccs
    · rw [storedCoords, if_neg ht, if_pos hcs] at h
      rw [PtrWf, if_neg ht, if_pos hcs] at hp
      rw [gsl_spmatrix_get, if_neg ht, if_pos hcs]
      by_cases hcc : c < M.size2
      · cases hf : (compSlice M c).find? (fun e => decide (e.1 = r)) with
        | none => simp [sliceFindVal, hf]
        | some e =>
            exfalso
            apply h
            have hmem := List.mem_of_find?_eq_some hf
            have hmatch := List.find?_some hf
            simp only [decide_eq_true_eq] at hmatch
            rw [List.mem_flatMap]
            exact ⟨c, List.mem_range.mpr hcc,
              by rw [show ((r, c) : ℕ × ℕ) = (e.1, c) by rw [hmatch]]
                 exact List.mem_map_of_mem _ hmem⟩
      · rw [compSlice_oor M c (by omega), sliceFindVal_nil]
    · have hcr : M.sptype = SpType.crs := by
        cases hq : M.sptype
        · exact absurd hq ht
        · exact absurd hq hcs
        · rfl
      rw [storedCoords, if_neg ht, if_neg hcs] at h
      rw [PtrWf, if_neg ht, if_neg hcs] at hp
      rw [gsl_spmatrix_get, if_neg ht, if_neg hcs]
      by_cases hrr : r < M.size1
      · cases hf : (compSlice M r).find? (fun e => decide (e.1 = c)) with
        | none => simp [sliceFindVal, hf]
        | some e =>
            exfalso
            apply h
            have hmem := List.mem_of_find?_eq_some hf
            have hmatch := List.find?_some hf
            simp only [decide_eq_true_eq] at hmatch
            rw [List.mem_flatMap]
            exact ⟨r, List.mem_range.mpr hrr,
              by rw [show ((r, c) : ℕ × ℕ) = (r, e.1) by rw [hmatch]]
                 exact List.mem_map_of_mem _ hmem⟩
      · rw [compSlice_oor M r (by omega), sliceFindVal_nil]

/-! ### Fold min/max lemmas -/

theorem foldl_min_le (l : List ℚ) (a : ℚ) :
    l.foldl min a ≤ a ∧ ∀ v ∈ l, l.foldl min a ≤ v := by
  induction l generalizing a with
  | nil => simp
  | cons b t ih =>
      obtain ⟨h1, h2⟩ := ih (min a b)
      refine ⟨le_trans h1 (min_le_left _ _), ?_⟩
      intro v hv
      rcases List.mem_cons.mp hv with rfl | hv
      · exact le_trans h1 (min_le_right _ _)
      · exact h2 v hv

theorem foldl_min_mem (l : List ℚ) (a : ℚ) : l.foldl min a = a ∨ l.foldl min a ∈ l := by
  induction l generalizing a with
  | nil => simp
  | cons b t ih =>
      rcases ih (min a b) with h | h
      · rcases min_choice a b with hc | hc
        · left
          rw [List.foldl_cons, h, hc]
        · right
          rw [List.foldl_cons, h, hc]
          exact List.mem_cons_self b t
      · right
        exact List.mem_cons_of_mem b h

theorem foldl_max_ge (l : List ℚ) (a : ℚ) :
    a ≤ l.foldl max a ∧ ∀ v ∈ l, v ≤ l.foldl max a := by
  induction l generalizing a with
  | nil => simp
  | cons b t ih =>
      obtain ⟨h1, h2⟩ := ih (max a b)
      refine ⟨le_trans (le_max_left _ _) h1, ?_⟩
      intro v hv
      rcases List.mem_cons.mp hv with rfl | hv
      · exact le_trans (le_max_right _ _) h1
      · exact h2 v hv

theorem foldl_max_mem (l : List ℚ) (a : ℚ) : l.foldl max a = a ∨ l.foldl max a ∈ l := by
  induction l generalizing a with
  | nil => simp
  | cons b t ih =>
      rcases ih (max a b) with h | h
      · rcases max_choice a b with hc | hc
        · left
          rw [List.foldl_cons, h, hc]
        · right
          rw [List.foldl_cons, h, hc]
          exact List.mem_cons_self b t
      · right
        exact List.mem_cons_of_mem b h

/-! ### Claims -/

/-- C1: For the 5-by-4 matrix built in triplet format by inserting, in
order, (0,2)=3.1, (0,3)=4.6, (1,0)=1.0, (1,2)=7.2, (3,0)=2.1, (3,1)=2.9,
(3,3)=8.5, (4,0)=4.1, the triplet-to-CCS conversion produces the major
pointer array [0,3,4,6,8] and the triplet-to-CRS conversion produces the
major pointer array [0,2,4,4,7,8]. -/
theorem claim_C1_example_pointer_arrays :
    resultP (gsl_spmatrix_ccs exM) = some [0, 3, 4, 6, 8] ∧
    resultP (gsl_spmatrix_crs exM) = some [0, 2, 4, 4, 7, 8] := by
  decide

/-- C2: For every matrix M in TRIPLET format, converting M to CCS and then
reading the CCS result as a dense matrix yields, at every coordinate, the
same value as converting M directly to dense with `gsl_spmatrix_sp2d`; the
input M is unmodified by the conversion (the embedding is purely
functional and the conversion allocates a fresh matrix). -/
theorem claim_C2_ccs_roundtrip_dense (M : gsl_spmatrix) (hW : TripletWf M)
    (ht : M.sptype = SpType.triplet) (hnd : (tripletCoords M).Nodup) :
    ∃ C D, gsl_spmatrix_ccs M = Except.ok C ∧ gsl_spmatrix_sp2d M = Except.ok D ∧
      ∀ r c, gsl_spmatrix_get C r c = D r c := by
  refine ⟨ccsMat M,
    (tripletEntries M).foldl
      (fun A e => fun r c => if r = e.1 ∧ c = e.2.1 then e.2.2 else A r c) (fun _ _ => 0),
    by rw [gsl_spmatrix_ccs, if_pos ht], by rw [gsl_spmatrix_sp2d, if_pos ht], ?_⟩
  intro r c
  rw [get_ccsMat M hW r c, foldl_scatter (tripletEntries M) _ r c hnd]
  unfold tripletFindVal
  cases (tripletEntries M).find? (coordMatch r c) with
  | none => rfl
  | some e => rfl

theorem claim_C2_witness :
    (TripletWf exM ∧ exM.sptype = SpType.triplet ∧ (tripletCoords exM).Nodup) ∧
    ∃ C D, gsl_spmatrix_ccs exM = Except.ok C ∧ gsl_spmatrix_sp2d exM = Except.ok D ∧
      ∀ r c, gsl_spmatrix_get C r c = D r c :=
  ⟨⟨by decide, by decide, by decide⟩,
    claim_C2_ccs_roundtrip_dense exM (by decide) (by decide) (by decide)⟩

/-- C3: For every TRIPLET-format matrix M and every coordinate (r, c)
already explicitly stored in M, a further set(M, r, c, x) leaves the
nonzero count unchanged (overwriting the existing slot rather than
appending a duplicate), and a subsequent get(M, r, c) returns x. -/
theorem claim_C3_set_overwrites (M : gsl_spmatrix) (r c : ℕ) (x : ℚ) (hW : LenWf M)
    (ht : M.sptype = SpType.triplet) (hst : (r, c) ∈ tripletCoords M) :
    ∃ M2, gsl_spmatrix_set M r c x = Except.ok M2 ∧ M2.nz = M.nz ∧
      gsl_spmatrix_get M2 r c = x := by
  refine ⟨tripletSet M r c x, by rw [gsl_spmatrix_set, if_pos ht], ?_,
    get_tripletSet_self M r c x hW ht⟩
  obtain ⟨k, hk⟩ := findSlot_mem r c (tripletCoords M) hst
  unfold tripletSet
  rw [hk]

theorem claim_C3_witness :
    (LenWf exM ∧ exM.sptype = SpType.triplet ∧ ((0, 2) : ℕ × ℕ) ∈ tripletCoords exM) ∧
    ∃ M2, gsl_spmatrix_set exM 0 2 9 = Except.ok M2 ∧ M2.nz = exM.nz ∧
      gsl_spmatrix_get M2 0 2 = 9 :=
  ⟨⟨by decide, by decide, by decide⟩,
    claim_C3_set_overwrites exM 0 2 9 (by decide) (by decide) (by decide)⟩

/-- C4 (counterexample): on the concrete CCS matrix `exC`, the in-place
format-preserving transpose does not succeed — it fails with a format
error, refuting the claim that it succeeds on every compressed matrix. -/
theorem claim_C4_counterexample :
    gsl_spmatrix_transpose exC = Except.error GslErr.badFormat := by
  rfl

/-- C4 (amended): for every matrix in a compressed format (CCS or CRS),
the in-place format-preserving transpose fails with a format error — per
the in-source documentation only TRIPLET inputs are currently supported,
and `gsl_spmatrix_transpose2` (transpose duality) is the supported
alternative for compressed matrices. -/
theorem claim_C4_compressed_transpose_fails (M : gsl_spmatrix)
    (h : M.sptype = SpType.ccs ∨ M.sptype = SpType.crs) :
    gsl_spmatrix_transpose M = Except.error GslErr.badFormat := by
  unfold gsl_spmatrix_transpose
  rcases h with h | h <;> rw [h]

theorem claim_C4_witness :
    (exC.sptype = SpType.ccs ∨ exC.sptype = SpType.crs) ∧
    gsl_spmatrix_transpose exC = Except.error GslErr.badFormat :=
  ⟨Or.inl rfl, claim_C4_compressed_transpose_fails exC (Or.inl rfl)⟩

/-- C5: For every matrix in a compressed format, applying the transpose
duality twice restores the original storage format tag, dimensions, and
the exact contents of the value, minor index, and major pointer arrays
(the operation is an involution with no data loss). -/
theorem claim_C5_transpose2_involution (M : gsl_spmatrix)
    (h : M.sptype = SpType.ccs ∨ M.sptype = SpType.crs) :
    gsl_spmatrix_transpose2 (gsl_spmatrix_transpose2 M) = M := by
  rcases M with ⟨s1, s2, iA, dA, pA, nm, nzv, t⟩
  rcases h with h | h <;> simp at h <;> subst h <;> rfl

theorem claim_C5_witness :
    (exC.sptype = SpType.ccs ∨ exC.sptype = SpType.crs) ∧
    gsl_spmatrix_transpose2 (gsl_spmatrix_transpose2 exC) = exC :=
  ⟨Or.inl rfl, claim_C5_transpose2_involution exC (Or.inl rfl)⟩

/-- C6: For matrices a and b of identical storage format and dimensions
(with structurally well-formed major pointer arrays), `gsl_spmatrix_equal`
returns true exactly when the logical element values agree at every
coordinate — equivalently, every coordinate stored in a has an equal
logical value in b and vice versa; in particular an explicit zero entry at
a coordinate with no stored entry in the other matrix compares equal, and
coverage is checked in both directions. -/
theorem claim_C6_equal_iff (a b : gsl_spmatrix) (hf : a.sptype = b.sptype)
    (h1 : a.size1 = b.size1) (h2 : a.size2 = b.size2) (hpa : PtrWf a) (hpb : PtrWf b) :
    gsl_spmatrix_equal a b = true ↔
      ∀ r c, gsl_spmatrix_get a r c = gsl_spmatrix_get b r c := by
  unfold gsl_spmatrix_equal
  rw [if_pos ⟨hf, h1, h2⟩, Bool.and_eq_true, List.all_eq_true, List.all_eq_true]
  constructor
  · rintro ⟨ha, hb⟩ r c
    by_cases hma : (r, c) ∈ storedCoords a
    · simpa using ha (r, c) hma
    · by_cases hmb : (r, c) ∈ storedCoords b
      · simpa using hb (r, c) hmb
      · rw [get_notStored a hpa r c hma, get_notStored b hpb r c hmb]
  · intro hAll
    exact ⟨fun rc _ => by simpa using hAll rc.1 rc.2, fun rc _ => by simpa using hAll rc.1 rc.2⟩

theorem claim_C6_witness :
    (exC.sptype = exC.sptype ∧ exC.size1 = exC.size1 ∧ exC.size2 = exC.size2 ∧
      PtrWf exC ∧ PtrWf exC) ∧
    (gsl_spmatrix_equal exC exC = true ↔
      ∀ r c, gsl_spmatrix_get exC r c = gsl_spmatrix_get exC r c) :=
  ⟨⟨rfl, rfl, rfl, by decide, by decide⟩,
    claim_C6_equal_iff exC exC rfl rfl rfl (by decide) (by decide)⟩

/-- C7: For every matrix with no stored entries, `gsl_spmatrix_minmax`
returns the empty-result error and does not report an arbitrary value;
for every matrix with at least one stored entry, it reports the minimum
and maximum over the stored values only. -/
theorem claim_C7_minmax (M : gsl_spmatrix) (hlen : M.nz ≤ M.data.length) :
    (M.nz = 0 → gsl_spmatrix_minmax M = Except.error GslErr.emptyResult) ∧
    (M.nz ≠ 0 → ∃ mn mx, gsl_spmatrix_minmax M = Except.ok (mn, mx) ∧
      mn ∈ M.data.take M.nz ∧ mx ∈ M.data.take M.nz ∧
      ∀ v ∈ M.data.take M.nz, mn ≤ v ∧ v ≤ mx) := by
  constructor
  · intro h0
    rw [gsl_spmatrix_minmax, if_pos h0]
  · intro hne
    have hvlen : (M.data.take M.nz).length = M.nz := by
      simp
      omega
    have hvne : M.data.take M.nz ≠ [] := by
      intro hnil
      rw [hnil] at hvlen
      exact hne hvlen.symm
    refine ⟨(M.data.take M.nz).foldl min ((M.data.take M.nz).headD 0),
      (M.data.take M.nz).foldl max ((M.data.take M.nz).headD 0),
      by rw [gsl_spmatrix_minmax, if_neg hne], ?_, ?_, ?_⟩
    · rcases foldl_min_mem (M.data.take M.nz) ((M.data.take M.nz).headD 0) with h | h
      · rw [h]
        cases hv : M.data.take M.nz with
        | nil => exact absurd hv hvne
        | cons v vs => exact List.mem_cons_self v vs
      · exact h
    · rcases foldl_max_mem (M.data.take M.nz) ((M.data.take M.nz).headD 0) with h | h
      · rw [h]
        cases hv : M.data.take M.nz with
        | nil => exact absurd hv hvne
        | cons v vs => exact List.mem_cons_self v vs
      · exact h
    · intro v hv2
      exact ⟨(foldl_min_le _ _).2 v hv2, (foldl_max_ge _ _).2 v hv2⟩

theorem claim_C7_witness :
    (exC.nz ≤ exC.data.length) ∧
    ((exC.nz = 0 → gsl_spmatrix_minmax exC = Except.error GslErr.emptyResult) ∧
     (exC.nz ≠ 0 → ∃ mn mx, gsl_spmatrix_minmax exC = Except.ok (mn, mx) ∧
        mn ∈ exC.data.take exC.nz ∧ mx ∈ exC.data.take exC.nz ∧
        ∀ v ∈ exC.data.take exC.nz, mn ≤ v ∧ v ≤ mx)) :=
  ⟨by decide, claim_C7_minmax exC (by decide)⟩

/-- C8: For every TRIPLET-format matrix and every sequence of set calls at
pairwise-distinct coordinates whose length exceeds the initial capacity,
after the whole sequence every inserted coordinate still has its inserted
value retrievable via get, regardless of how many capacity-growing
reallocations occurred (growth preserves array content and slot
references). -/
theorem claim_C8_growth_preserves_entries (M0 : gsl_spmatrix) (seq : List (ℕ × ℕ × ℚ))
    (hW : LenWf M0) (ht : M0.sptype = SpType.triplet)
    (hdist : seq.Pairwise (fun e1 e2 => eCoord e1 ≠ eCoord e2))
    (hcap : M0.nzmax < seq.length) :
    ∀ e ∈ seq, gsl_spmatrix_get (setList M0 seq) e.1 e.2.1 = e.2.2 :=
  get_setList_mem seq M0 hW ht hdist

theorem claim_C8_witness :
    (LenWf (gsl_spmatrix_alloc 1 1) ∧ (gsl_spmatrix_alloc 1 1).sptype = SpType.triplet ∧
      ([((0 : ℕ), (0 : ℕ), (1 : ℚ)), (0, 1, 2), (1, 0, 3)]).Pairwise
        (fun e1 e2 => eCoord e1 ≠ eCoord e2) ∧
      (gsl_spmatrix_alloc 1 1).nzmax
        < ([((0 : ℕ), (0 : ℕ), (1 : ℚ)), (0, 1, 2), (1, 0, 3)]).length) ∧
    ∀ e ∈ [((0 : ℕ), (0 : ℕ), (1 : ℚ)), (0, 1, 2), (1, 0, 3)],
      gsl_spmatrix_get
        (setList (gsl_spmatrix_alloc 1 1) [((0 : ℕ), (0 : ℕ), (1 : ℚ)), (0, 1, 2), (1, 0, 3)])
        e.1 e.2.1 = e.2.2 :=
  ⟨⟨by decide, by decide, by decide, by decide⟩,
    claim_C8_growth_preserves_entries _ _ (by decide) (by decide) (by decide) (by decide)⟩

/-- C9: the claim states that the complex tbmv kernel only reads its
TransA dispatch parameter.  The source contradicts it: the dispatch
condition at lines 31-32 of `source_tbmv_c.h` contains the assignment
`TransA = CblasTrans`, so evaluating the condition with
`order = CblasColMajor` stores `CblasTrans` into `TransA` — here shown at
the concrete input `(ColMajor, NoTrans)`. -/
theorem claim_C9_tbmv_dispatch_writes_TransA :
    (tbmvDispatchCond CBLAS_ORDER.ColMajor CBLAS_TRANSPOSE.NoTrans).2
        = CBLAS_TRANSPOSE.Trans ∧
    (tbmvDispatchCond CBLAS_ORDER.ColMajor CBLAS_TRANSPOSE.NoTrans).2
        ≠ CBLAS_TRANSPOSE.NoTrans := by
  decide

/-- C10: when alpha = 0 and beta = 1, the real gemv kernel returns
immediately with the output vector Y unchanged, for every order, transpose
flag, dimensions, strides, and contents of A and X (in particular the
result does not depend on A or X). -/
theorem claim_C10_gemv_early_return (order : CBLAS_ORDER) (TransA : CBLAS_TRANSPOSE)
    (M N : ℕ) (alpha : ℚ) (A : List ℚ) (lda : ℕ) (X : List ℚ) (incX : ℤ)
    (beta : ℚ) (Y : List ℚ) (incY : ℤ) (ha : alpha = 0) (hb : beta = 1) :
    gemv order TransA M N alpha A lda X incX beta Y incY = some Y := by
  rw [gemv, if_pos ⟨ha, hb⟩]

theorem claim_C10_witness :
    ((0 : ℚ) = 0 ∧ (1 : ℚ) = 1) ∧
    gemv CBLAS_ORDER.RowMajor CBLAS_TRANSPOSE.NoTrans 2 2 0 [1, 2, 3, 4] 2 [5, 6] 1 1
      [7, 8] 1 = some [7, 8] :=
  ⟨⟨rfl, rfl⟩,
    claim_C10_gemv_early_return CBLAS_ORDER.RowMajor CBLAS_TRANSPOSE.NoTrans 2 2 0
      [1, 2, 3, 4] 2 [5, 6] 1 1 [7, 8] 1 rfl rfl⟩
